import Mathlib

/-!
# Verification of the jj tree-merge, test-backend and fix-tool code

This file is a shallow embedding, in Lean 4, of three parts of the
repository:

* `lib/src/tree.rs` — the recursive three-way tree merge
  (`merge_trees`, `merge_tree_value`, `try_resolve_file_conflict`);
* `lib/testutils/src/test_backend.rs` — the in-memory `TestBackend`;
* `cli/src/commands/fix.rs` — `fix_file_ids` and `run_tool`.

Embedding conventions:

* Content-addressed ids (`TreeId`, `FileId`, `ConflictId`) are modelled by
  the content they address: a `TreeValue::Tree(id)` holds the subtree's
  entry list directly, a `FileId` is the file's byte content, and a
  `TreeValue::Conflict(id)` holds the stored merge directly.  This is the
  content-addressing invariant of the store (ids are injective content
  hashes; the spec's canonical empty tree corresponds to the empty entry
  list), and it turns every store read/write in `tree.rs` into a pure
  operation.
* The `Merge<T>` primitive lives in `lib/src/merge.rs`, which is not part
  of the sources here; its operations are modelled from the spec (§4.2,
  §4.4) and are marked `Modelled from the spec:` below.
* Recursion through subtrees is made obviously terminating with a fuel
  parameter; all theorems about `merge_trees` quantify over the fuel.
* Machine integers that matter (byte values) are `Nat`; no overflow is
  relevant to the claims.
-/

namespace JJ

/-! ## Association lists (the `BTreeMap` / `HashMap` operations used) -/

/-- Lookup in an association list (first binding wins), as `BTreeMap::get`
/ `HashMap::get`. -/
def alookup {κ ν : Type} [DecidableEq κ] : List (κ × ν) → κ → Option ν
  | [], _ => none
  | (k', v) :: rest, k => if k = k' then some v else alookup rest k

/-- Insert-or-replace in an association list, as `BTreeMap::insert` /
`HashMap::insert` (the first existing binding is replaced, otherwise the
binding is appended). -/
def ainsert {κ ν : Type} [DecidableEq κ] : List (κ × ν) → κ → ν → List (κ × ν)
  | [], k, v => [(k, v)]
  | (k', v') :: rest, k, v =>
    if k = k' then (k, v) :: rest else (k', v') :: ainsert rest k v

/-- Remove a key from an association list, as `BTreeMap::remove`. -/
def aremove {κ ν : Type} [DecidableEq κ] (l : List (κ × ν)) (k : κ) : List (κ × ν) :=
  l.filter (fun p => p.1 ≠ k)

theorem alookup_ainsert_self {κ ν : Type} [DecidableEq κ]
    (l : List (κ × ν)) (k : κ) (v : ν) : alookup (ainsert l k v) k = some v := by
  induction l with
  | nil => simp [ainsert, alookup]
  | cons hd tl ih =>
    by_cases h : k = hd.1
    · simp [ainsert, alookup, h]
    · simp only [ainsert, alookup]
      rw [if_neg h, alookup, if_neg h]
      exact ih

theorem alookup_ainsert_ne {κ ν : Type} [DecidableEq κ]
    (l : List (κ × ν)) (k k' : κ) (v : ν) (h : k' ≠ k) :
    alookup (ainsert l k v) k' = alookup l k' := by
  induction l with
  | nil => simp [ainsert, alookup, h]
  | cons hd tl ih =>
    by_cases hk : k = hd.1
    · subst hk
      simp [ainsert, alookup, h]
    · simp only [ainsert]
      rw [if_neg hk]
      by_cases hk' : k' = hd.1
      · simp [alookup, hk']
      · simp only [alookup]
        rw [if_neg hk', if_neg hk']
        exact ih

theorem alookup_aremove_self {κ ν : Type} [DecidableEq κ]
    (l : List (κ × ν)) (k : κ) : alookup (aremove l k) k = none := by
  induction l with
  | nil => simp [aremove, alookup]
  | cons hd tl ih =>
    by_cases h : hd.1 = k
    · simpa [aremove, List.filter, h] using ih
    · have hne : k ≠ hd.1 := fun hh => h hh.symm
      simpa [aremove, List.filter, h, alookup, hne] using ih

theorem alookup_aremove_ne {κ ν : Type} [DecidableEq κ]
    (l : List (κ × ν)) (k k' : κ) (h : k' ≠ k) :
    alookup (aremove l k) k' = alookup l k' := by
  induction l with
  | nil => simp [aremove, alookup]
  | cons hd tl ih =>
    by_cases hk : hd.1 = k
    · have hne : k' ≠ hd.1 := fun hh => h (hh.trans hk)
      simpa [aremove, List.filter, hk, alookup, hne, h] using ih
    · by_cases hk' : k' = hd.1
      · simp [aremove, List.filter, hk, alookup, hk']
      · simpa [aremove, List.filter, hk, alookup, hk'] using ih

theorem alookup_isSome_mem_keys {κ ν : Type} [DecidableEq κ]
    (l : List (κ × ν)) (k : κ) (v : ν) (h : alookup l k = some v) :
    k ∈ l.map Prod.fst := by
  induction l with
  | nil => simp [alookup] at h
  | cons hd tl ih =>
    simp only [alookup] at h
    by_cases hk : k = hd.1
    · simp [hk]
    · rw [if_neg hk] at h
      simp [ih h]

/-! ## The `Merge<T>` primitive

`lib/src/merge.rs` is not among the sources of this development; the
operations below are modelled from the spec (§4.2 "Merge Primitive" and
§4.4).  A `Merge<T>` is an odd-length vector alternating
*add, remove, add, …, add*; we represent it as a plain `List`. -/

/-- Modelled from the spec: `trivial_merge` on a three-term merge
`[side1, base, side2]` resolves exactly the pairs listed in §4.4: if the
two sides are equal the common side wins, and if one side equals the base
the other side wins. -/
def trivialMerge3 {α : Type} [DecidableEq α] (add0 remove0 add1 : α) : Option α :=
  if add0 = add1 then some add0
  else if add0 = remove0 then some add1
  else if remove0 = add1 then some add0
  else none

/-- One step of the signed term count for the general `resolve_trivial`:
adds count +1 and removes count −1 into an association list of counts. -/
def bumpCount {α : Type} [DecidableEq α] : List (α × Int) → α → Int → List (α × Int)
  | [], v, d => [(v, d)]
  | (w, c) :: rest, v, d =>
    if v = w then (w, c + d) :: rest else (w, c) :: bumpCount rest v d

/-- Modelled from the spec: the signed multiset of terms of a merge
(adds minus removes), built positionally from the alternating vector. -/
def countTerms {α : Type} [DecidableEq α] (values : List α) : List (α × Int) :=
  (values.enum.foldl (fun acc p =>
    bumpCount acc p.2 (if p.1 % 2 = 0 then 1 else -1)) [])

/-- Modelled from the spec: `resolve_trivial` returns the single net value
of adds − removes (§4.2), where — per the trivial-resolve law and the
executable-bit scenario of §8 — terms where every side made the same
change (two surviving keys whose signed counts sum to one) also resolve to
the positively-counted value.  Three-term merges take the §4.4 fast
path. -/
def trivialMerge {α : Type} [DecidableEq α] (values : List α) : Option α :=
  match values with
  | [v] => some v
  | [add0, remove0, add1] => trivialMerge3 add0 remove0 add1
  | _ =>
    match (countTerms values).filter (fun p => p.2 ≠ 0) with
    | [(v, c)] => if c = 1 then some v else none
    | [(v1, c1), (v2, _)] => if c1 > 0 then some v1 else some v2
    | _ => none

/-- Modelled from the spec: `Merge::resolved(T)` is the merge of length
one. -/
def Merge.resolved {α : Type} (v : α) : List α := [v]

/-- Modelled from the spec: `into_resolved()` returns the single add of a
length-one merge, or the whole merge on failure. -/
def intoResolved {α : Type} (m : List α) : Except (List α) α :=
  match m with
  | [v] => Except.ok v
  | _ => Except.error m

/-- Modelled from the spec: `flatten()` turns a merge of merges into a
merge by concatenating, preserving the alternation invariant (an inner
merge sitting at a remove position contributes its adds as removes and
vice versa, which positional concatenation of odd-length vectors does
automatically). -/
def Merge.flatten {α : Type} (m : List (List α)) : List α := m.flatten

/-- Modelled from the spec: `maybe_map(pred)` maps every term, returning
`some` only if every term matches the predicate. -/
def maybeMap {α β : Type} (f : α → Option β) : List α → Option (List β)
  | [] => some []
  | a :: rest =>
    match f a, maybeMap f rest with
    | some b, some bs => some (b :: bs)
    | _, _ => none

/-- Modelled from the spec: `try_map(f)` applies a fallible function
pointwise (in `tree.rs` the outer `flatten` is a separate call). -/
def tryMap {α β ε : Type} (f : α → Except ε β) : List α → Except ε (List β)
  | [] => Except.ok []
  | a :: rest =>
    match f a, tryMap f rest with
    | Except.ok b, Except.ok bs => Except.ok (b :: bs)
    | Except.error e, _ => Except.error e
    | _, Except.error e => Except.error e

/-- One cancellation step of `simplify`: find an add position and a remove
position holding equal values and delete both (deleting one even-index and
one odd-index element keeps the vector odd and alternating under the
positional reading). -/
def simplifyStep {α : Type} [DecidableEq α] (values : List α) : Option (List α) :=
  match (values.enum.find? (fun p =>
      p.1 % 2 = 0 ∧ (values.enum.any (fun q => q.1 % 2 = 1 ∧ q.2 = p.2)))) with
  | none => none
  | some (i, v) =>
    match (values.enum.find? (fun q => q.1 % 2 = 1 ∧ q.2 = v)) with
    | none => none
    | some (j, _) =>
      some ((values.enum.filter (fun q => q.1 ≠ i ∧ q.1 ≠ j)).map Prod.snd)

/-- Fuelled iteration of `simplifyStep`. -/
def simplifyAux {α : Type} [DecidableEq α] : Nat → List α → List α
  | 0, values => values
  | fuel + 1, values =>
    match simplifyStep values with
    | none => values
    | some values' => simplifyAux fuel values'

/-- Modelled from the spec: `simplify()` cancels equal add/remove pairs
until none remain. -/
def Merge.simplify {α : Type} [DecidableEq α] (values : List α) : List α :=
  simplifyAux values.length values

/-! ## The tree data model (`lib/src/backend.rs` tree types, content-addressed)

A `TreeValue` is one of file, symlink, subtree, git submodule or conflict
(spec §3).  Content-addressed ids are replaced by the content they
address: `tree` holds the subtree's entry list (the `backend::Tree`
mapping from basename to value), `conflict` holds the stored
`Merge<Option<TreeValue>>`, and a file id is the file's byte content. -/

inductive TreeValue where
  | file (id : List Nat) (executable : Bool) (copyId : List Nat)
  | symlink (id : String)
  | tree (entries : List (String × TreeValue))
  | gitSubmodule (id : List Nat)
  | conflict (terms : List (Option TreeValue))

mutual

def TreeValue.decEq : (a b : TreeValue) → Decidable (a = b)
  | .file i e c, .file i2 e2 c2 =>
    if h : i = i2 ∧ e = e2 ∧ c = c2 then
      isTrue (by rw [h.1, h.2.1, h.2.2])
    else isFalse (by intro hh; rw [TreeValue.file.injEq] at hh; exact h hh)
  | .symlink i, .symlink i2 =>
    if h : i = i2 then isTrue (by rw [h])
    else isFalse (by intro hh; rw [TreeValue.symlink.injEq] at hh; exact h hh)
  | .gitSubmodule i, .gitSubmodule i2 =>
    if h : i = i2 then isTrue (by rw [h])
    else isFalse (by intro hh; rw [TreeValue.gitSubmodule.injEq] at hh; exact h hh)
  | .tree es, .tree es2 =>
    match TreeValue.decEqEntries es es2 with
    | isTrue h => isTrue (by rw [h])
    | isFalse h => isFalse (by intro hh; rw [TreeValue.tree.injEq] at hh; exact h hh)
  | .conflict ts, .conflict ts2 =>
    match TreeValue.decEqTerms ts ts2 with
    | isTrue h => isTrue (by rw [h])
    | isFalse h => isFalse (by intro hh; rw [TreeValue.conflict.injEq] at hh; exact h hh)
  | .file .., .symlink .. => isFalse (fun hh => TreeValue.noConfusion hh)
  | .file .., .tree .. => isFalse (fun hh => TreeValue.noConfusion hh)
  | .file .., .gitSubmodule .. => isFalse (fun hh => TreeValue.noConfusion hh)
  | .file .., .conflict .. => isFalse (fun hh => TreeValue.noConfusion hh)
  | .symlink .., .file .. => isFalse (fun hh => TreeValue.noConfusion hh)
  | .symlink .., .tree .. => isFalse (fun hh => TreeValue.noConfusion hh)
  | .symlink .., .gitSubmodule .. => isFalse (fun hh => TreeValue.noConfusion hh)
  | .symlink .., .conflict .. => isFalse (fun hh => TreeValue.noConfusion hh)
  | .tree .., .file .. => isFalse (fun hh => TreeValue.noConfusion hh)
  | .tree .., .symlink .. => isFalse (fun hh => TreeValue.noConfusion hh)
  | .tree .., .gitSubmodule .. => isFalse (fun hh => TreeValue.noConfusion hh)
  | .tree .., .conflict .. => isFalse (fun hh => TreeValue.noConfusion hh)
  | .gitSubmodule .., .file .. => isFalse (fun hh => TreeValue.noConfusion hh)
  | .gitSubmodule .., .symlink .. => isFalse (fun hh => TreeValue.noConfusion hh)
  | .gitSubmodule .., .tree .. => isFalse (fun hh => TreeValue.noConfusion hh)
  | .gitSubmodule .., .conflict .. => isFalse (fun hh => TreeValue.noConfusion hh)
  | .conflict .., .file .. => isFalse (fun hh => TreeValue.noConfusion hh)
  | .conflict .., .symlink .. => isFalse (fun hh => TreeValue.noConfusion hh)
  | .conflict .., .tree .. => isFalse (fun hh => TreeValue.noConfusion hh)
  | .conflict .., .gitSubmodule .. => isFalse (fun hh => TreeValue.noConfusion hh)


def TreeValue.decEqEntries : (a b : List (String × TreeValue)) → Decidable (a = b)
  | [], [] => isTrue rfl
  | [], _ :: _ => isFalse (fun hh => List.noConfusion hh)
  | _ :: _, [] => isFalse (fun hh => List.noConfusion hh)
  | (k, v) :: r, (k2, v2) :: r2 =>
    if hk : k = k2 then
      match TreeValue.decEq v v2 with
      | isTrue hv =>
        match TreeValue.decEqEntries r r2 with
        | isTrue hr => isTrue (by rw [hk, hv, hr])
        | isFalse hr => isFalse (by
            intro hh
            rw [List.cons.injEq] at hh
            exact hr hh.2)
      | isFalse hv => isFalse (by
          intro hh
          rw [List.cons.injEq, Prod.mk.injEq] at hh
          exact hv hh.1.2)
    else isFalse (by
      intro hh
      rw [List.cons.injEq, Prod.mk.injEq] at hh
      exact hk hh.1.1)


def TreeValue.decEqTerms : (a b : List (Option TreeValue)) → Decidable (a = b)
  | [], [] => isTrue rfl
  | [], _ :: _ => isFalse (fun hh => List.noConfusion hh)
  | _ :: _, [] => isFalse (fun hh => List.noConfusion hh)
  | none :: r, none :: r2 =>
    match TreeValue.decEqTerms r r2 with
    | isTrue hr => isTrue (by rw [hr])
    | isFalse hr => isFalse (by
        intro hh
        rw [List.cons.injEq] at hh
        exact hr hh.2)
  | none :: _, some _ :: _ => isFalse (by
      intro hh
      rw [List.cons.injEq] at hh
      exact Option.noConfusion hh.1)
  | some _ :: _, none :: _ => isFalse (by
      intro hh
      rw [List.cons.injEq] at hh
      exact Option.noConfusion hh.1)
  | some v :: r, some v2 :: r2 =>
    match TreeValue.decEq v v2 with
    | isTrue hv =>
      match TreeValue.decEqTerms r r2 with
      | isTrue hr => isTrue (by rw [hv, hr])
      | isFalse hr => isFalse (by
          intro hh
          rw [List.cons.injEq] at hh
          exact hr hh.2)
    | isFalse hv => isFalse (by
        intro hh
        rw [List.cons.injEq, Option.some.injEq] at hh
        exact hv hh.1)


end

instance : DecidableEq TreeValue := TreeValue.decEq

instance : DecidableEq TreeValue := TreeValue.decEq

/-- `backend::Tree`: the mapping from basename to `TreeValue` of one
directory, as a (duplicate-free by construction) association list. -/
abbrev TreeData := List (String × TreeValue)

/-- `backend::Tree::value(basename)`. -/
def treeValue (d : TreeData) (name : String) : Option TreeValue :=
  alookup d name

/-- `backend::Tree::set_or_remove(basename, value)`: insert the value, or
remove the binding when the new value is absent. -/
def setOrRemove (d : TreeData) (name : String) (v : Option TreeValue) : TreeData :=
  match v with
  | some v => ainsert d name v
  | none => aremove d name

/-- `tree::Tree` of `lib/src/tree.rs`: a directory (`dir`) together with
its data; the content-addressed `id` field is represented by `data`
itself, so the `PartialEq` on `(id, dir)` becomes equality of this
structure. -/
structure Tree where
  dir : List String
  data : TreeData
  deriving DecidableEq

/-- `Tree::empty`: the canonical empty tree of a directory. -/
def Tree.empty (dir : List String) : Tree := ⟨dir, []⟩

instance {ε α : Type} [DecidableEq ε] [DecidableEq α] : DecidableEq (Except ε α) := fun x y =>
  match x, y with
  | Except.ok a, Except.ok b =>
    if h : a = b then isTrue (by rw [h])
    else isFalse (by intro hh; injection hh; contradiction)
  | Except.error a, Except.error b =>
    if h : a = b then isTrue (by rw [h])
    else isFalse (by intro hh; injection hh; contradiction)
  | Except.ok _, Except.error _ => isFalse (fun hh => Except.noConfusion hh)
  | Except.error _, Except.ok _ => isFalse (fun hh => Except.noConfusion hh)

/-! ## The recursive three-way tree merge (`lib/src/tree.rs`) -/

/-- The failures of the merge: running out of fuel stands for the
unbounded recursion of the source, and `assertFailed` for the
`assert_eq!` on directories at the top of `merge_trees`.  (With ids
replaced by contents, the store reads of the source cannot fail.) -/
inductive MergeErr where
  | outOfFuel
  | assertFailed
  deriving DecidableEq

/-- The basenames iterated by `TreeEntryDiffIterator`: the merged,
deduplicated name lists of the two trees. -/
def unionNames (d1 d2 : TreeData) : List String :=
  (d1.map Prod.fst ++ d2.map Prod.fst).dedup

/-- `TreeEntryDiffIterator` yields exactly the basenames at which the two
trees hold different values. -/
def diffNames (d1 d2 : TreeData) : List String :=
  (unionNames d1 d2).filter (fun n => treeValue d1 n ≠ treeValue d2 n)

/-- `files::MergeResult`: the outcome of the external file-content line
merger. -/
inductive MergeResult where
  | resolved (content : List Nat)
  | conflicted (hunks : List (List Nat))
  deriving DecidableEq

/-- Modelled from the spec: `files::merge` (in `lib/src/files.rs`, not
among the sources here) is an external collaborator that takes a
`Merge<Bytes>` and returns either a clean result or conflict hunks
(§4.4.1).  It is modelled as resolving exactly the trivially resolvable
content merges; no claim settled in this file depends on its hunk-level
behaviour. -/
def filesMergeModel (contents : List (List Nat)) : MergeResult :=
  match trivialMerge contents with
  | some c => MergeResult.resolved c
  | none => MergeResult.conflicted []

/-- The first `maybe_map` of `try_resolve_file_conflict`: per-term file
id (`None` unless the term is a present file). -/
def termFileId (term : Option TreeValue) : Option (List Nat) :=
  match term with
  | some (.file id _ _) => some id
  | _ => none

/-- The second `maybe_map`: per-term executable bit. -/
def termExecutable (term : Option TreeValue) : Option Bool :=
  match term with
  | some (.file _ executable _) => some executable
  | _ => none

/-- The third `maybe_map`: per-term copy id. -/
def termCopyId (term : Option TreeValue) : Option (List Nat) :=
  match term with
  | some (.file _ _ copyId) => some copyId
  | _ => none

/-- `try_resolve_file_conflict` of `lib/src/tree.rs`: abort (`none`)
unless every term is a present file; abort unless the executable and
copy-id merges resolve trivially; return the trivially resolved file id
if there is one, otherwise simplify the file-id merge, read the contents
(a file id is its content here) and run the external line merger. -/
def tryResolveFileConflict (filesMerge : List (List Nat) → MergeResult)
    (conflict : List (Option TreeValue)) : Option TreeValue :=
  match maybeMap termFileId conflict with
  | none => none
  | some fileIdConflict =>
  match maybeMap termExecutable conflict with
  | none => none
  | some executableConflict =>
  match maybeMap termCopyId conflict with
  | none => none
  | some copyIdConflict =>
  match trivialMerge executableConflict with
  | none => none
  | some executable =>
  match trivialMerge copyIdConflict with
  | none => none
  | some copyId =>
  match trivialMerge fileIdConflict with
  | some resolvedFileId => some (.file resolvedFileId executable copyId)
  | none =>
    let fileIdConflict := Merge.simplify fileIdConflict
    let contents := fileIdConflict
    match filesMerge contents with
    | MergeResult.resolved mergedContent =>
      some (.file mergedContent executable copyId)
    | MergeResult.conflicted _ => none

/-- `maybe_tree_id`: `Some` if the value is a subtree or missing; a
missing value is treated as the empty tree. -/
def maybeTreeData (value : Option TreeValue) : Option TreeData :=
  match value with
  | some (.tree d) => some d
  | none => some []
  | some _ => none

/-- `merge_tree_value`, parameterized over the recursive call back into
`merge_trees`: resolve tree conflicts by recursing (dropping the entry if
the merged subtree is empty), otherwise expand embedded conflicts,
flatten, simplify, and either take the trivial resolution, the file
content auto-merge, or persist the conflict. -/
def mergeTreeValueGen (recur : Tree → Tree → Tree → Except MergeErr Tree)
    (dir : List String) (basename : String)
    (maybe_base maybe_side1 maybe_side2 : Option TreeValue) :
    Except MergeErr (Option TreeValue) :=
  match maybeTreeData maybe_base, maybeTreeData maybe_side1,
      maybeTreeData maybe_side2 with
  | some base_data, some side1_data, some side2_data =>
    let subdir := dir ++ [basename]
    match recur ⟨subdir, side1_data⟩ ⟨subdir, base_data⟩ ⟨subdir, side2_data⟩ with
    | Except.error e => Except.error e
    | Except.ok merged_tree =>
      -- `write_tree` is content-addressed; comparing the merged tree's id
      -- with `empty_tree_id` is comparing its data with the empty data.
      Except.ok (if merged_tree.data = [] then none
        else some (.tree merged_tree.data))
  | _, _, _ =>
    let conflict : List (Option TreeValue) := [maybe_side1, maybe_base, maybe_side2]
    -- `try_map` expanding embedded conflicts; `read_conflict` is total
    -- here because a conflict id holds the stored merge.
    let expanded := conflict.map (fun term =>
      match term with
      | some (.conflict m) => m
      | _ => Merge.resolved term)
    let merge := Merge.simplify (Merge.flatten expanded)
    match intoResolved merge with
    | Except.ok value => Except.ok value
    | Except.error conflict2 =>
      match tryResolveFileConflict filesMergeModel conflict2 with
      | some tree_value => Except.ok (some tree_value)
      | none =>
        -- `write_conflict` is content-addressed: the persisted conflict
        -- id holds the merge itself.
        Except.ok (some (.conflict conflict2))

/-- The `for` loop of `merge_trees`: walk the differing basenames,
starting from a copy of side 1's data; take side 2 where side 1 is
unchanged, keep side 1 where both sides changed alike, and call
`merge_tree_value` otherwise. -/
def mergeLoopGen
    (mtv : String → Option TreeValue → Option TreeValue → Option TreeValue →
      Except MergeErr (Option TreeValue))
    (side1 base side2 : Tree) :
    List String → TreeData → Except MergeErr TreeData
  | [], acc => Except.ok acc
  | basename :: rest, acc =>
    let maybe_base := treeValue base.data basename
    let maybe_side2 := treeValue side2.data basename
    let maybe_side1 := treeValue side1.data basename
    if maybe_side1 = maybe_base then
      -- side 1 is unchanged: use the value from side 2
      mergeLoopGen mtv side1 base side2 rest (setOrRemove acc basename maybe_side2)
    else if maybe_side1 = maybe_side2 then
      -- both sides changed in the same way: the output already has it
      mergeLoopGen mtv side1 base side2 rest acc
    else
      match mtv basename maybe_base maybe_side1 maybe_side2 with
      | Except.error e => Except.error e
      | Except.ok new_value =>
        mergeLoopGen mtv side1 base side2 rest (setOrRemove acc basename new_value)

/-- `merge_trees(side1, base, side2)` of `lib/src/tree.rs`, with a fuel
bound on the subtree recursion: assert the directories agree, return a
trivially resolved tree directly, and otherwise rewrite side 1 at every
basename where base and side 2 differ. -/
def mergeTrees : Nat → Tree → Tree → Tree → Except MergeErr Tree
  | 0, _, _, _ => Except.error MergeErr.outOfFuel
  | fuel + 1, side1_tree, base_tree, side2_tree =>
    let dir := base_tree.dir
    if side1_tree.dir ≠ dir then Except.error MergeErr.assertFailed
    else if side2_tree.dir ≠ dir then Except.error MergeErr.assertFailed
    else
      match trivialMerge [side1_tree, base_tree, side2_tree] with
      | some resolved => Except.ok resolved
      | none =>
        let diffs := diffNames base_tree.data side2_tree.data
        match mergeLoopGen
            (fun name mb ms1 ms2 => mergeTreeValueGen (mergeTrees fuel) dir name mb ms1 ms2)
            side1_tree base_tree side2_tree diffs side1_tree.data with
        | Except.error e => Except.error e
        | Except.ok new_tree =>
          -- `write_tree` is content-addressed and returns the tree.
          Except.ok ⟨dir, new_tree⟩

/-- `merge_tree_value` as called with a given fuel for its subtree
recursion. -/
def mergeTreeValue (fuel : Nat) :=
  mergeTreeValueGen (mergeTrees fuel)

/-! ## The `TestBackend` (`lib/testutils/src/test_backend.rs`)

Ids here are opaque byte strings (`Vec<u8>`), modelled as `List Nat`.
`get_hash` is `blake2b_hash` truncated to `HASH_LENGTH` bytes; the hash
is an external primitive, so the backend operations are parameterized by
a family of hash functions (one per hashed payload type), and every
theorem holds for an arbitrary family, with an injectivity hypothesis
only where the empty-tree sentinel check requires one. -/

/-- A repository path, as the path argument of the backend calls. -/
abbrev RepoPath := List String

/-- `Signature` (spec §3): name, email, millisecond timestamp and
timezone offset. -/
structure Signature where
  name : String
  email : String
  timestampMillis : Int
  tzOffset : Int
  deriving DecidableEq

/-- Modelled from the spec: `backend::Commit` (its definition is in
`lib/src/backend.rs`, not among the sources here) — parents, root tree
id, change id, author and committer signatures (absent on the root
commit), description and optional cryptographic signature (§3). -/
structure Commit where
  parents : List (List Nat)
  rootTree : List Nat
  changeId : List Nat
  author : Option Signature
  committer : Option Signature
  description : String
  secureSig : Option (List Nat)
  deriving DecidableEq

/-- Modelled from the spec: `make_root_commit` (in `lib/src/backend.rs`,
not among the sources here) builds the synthetic root commit: no
parents, the empty tree, the given all-zero change id, no author (§3
"Root commit"). -/
def makeRootCommit (rootChangeId : List Nat) (emptyTreeId : List Nat) : Commit :=
  { parents := []
    rootTree := emptyTreeId
    changeId := rootChangeId
    author := none
    committer := none
    description := ""
    secureSig := none }

/-- The family of content-hash functions standing for `get_hash`
(`blake2b_hash` truncated to `HASH_LENGTH`), one per hashed payload
type. -/
structure Hashes where
  file : List Nat → List Nat
  symlink : String → List Nat
  tree : TreeData → List Nat
  conflict : List (Option TreeValue) → List Nat
  commit : Commit → List Nat
  copy : List Nat → List Nat

/-- `TestBackendData`: the per-path object tables of the test backend.
Copy histories are opaque payloads here (`List Nat`). -/
structure TestBackendData where
  commits : List (List Nat × Commit)
  trees : List (RepoPath × List (List Nat × TreeData))
  files : List (RepoPath × List (List Nat × List Nat))
  symlinks : List (RepoPath × List (List Nat × String))
  conflicts : List (RepoPath × List (List Nat × List (Option TreeValue)))
  copies : List (List Nat × List Nat)

/-- The empty backend state (`TestBackendData::default()`). -/
def TestBackendData.empty : TestBackendData :=
  ⟨[], [], [], [], [], []⟩

/-- `HASH_LENGTH = 10`. -/
def HASH_LENGTH : Nat := 10

/-- `CHANGE_ID_LENGTH = 16`. -/
def CHANGE_ID_LENGTH : Nat := 16

/-- `TestBackend::root_commit_id`: `HASH_LENGTH` zero bytes. -/
def rootCommitId : List Nat := List.replicate HASH_LENGTH 0

/-- `TestBackend::root_change_id`: `CHANGE_ID_LENGTH` zero bytes. -/
def rootChangeId : List Nat := List.replicate CHANGE_ID_LENGTH 0

/-- `TestBackend::empty_tree_id`: the hash of `Tree::default()`. -/
def emptyTreeId (h : Hashes) : List Nat := h.tree []

/-- `BackendError`, restricted to the kinds the test backend produces.
The `source` field of `ObjectNotFound` is a formatted display string in
the source and is omitted here. -/
inductive BackendError where
  | objectNotFound (objectType : String) (hash : List Nat)
  deriving DecidableEq

/-- Nested lookup `data.<table>.get(path).and_then(|items| items.get(id))`. -/
def lookup2 {κ ν : Type} [DecidableEq κ]
    (m : List (RepoPath × List (κ × ν))) (path : RepoPath) (k : κ) : Option ν :=
  (alookup m path).bind (fun items => alookup items k)

/-- Nested insert `data.<table>.entry(path).or_default().insert(id, v)`. -/
def insert2 {κ ν : Type} [DecidableEq κ]
    (m : List (RepoPath × List (κ × ν))) (path : RepoPath) (k : κ) (v : ν) :
    List (RepoPath × List (κ × ν)) :=
  ainsert m path (ainsert ((alookup m path).getD []) k v)

/-- `TestBackend::read_file`. -/
def readFile (d : TestBackendData) (path : RepoPath) (id : List Nat) :
    Except BackendError (List Nat) :=
  match lookup2 d.files path id with
  | none => Except.error (BackendError.objectNotFound "file" id)
  | some contents => Except.ok contents

/-- `TestBackend::write_file`: hash the bytes, store them under the
path, return the id. -/
def writeFile (h : Hashes) (d : TestBackendData) (path : RepoPath)
    (contents : List Nat) : TestBackendData × List Nat :=
  let id := h.file contents
  ({ d with files := insert2 d.files path id contents }, id)

/-- `TestBackend::read_symlink`. -/
def readSymlink (d : TestBackendData) (path : RepoPath) (id : List Nat) :
    Except BackendError String :=
  match lookup2 d.symlinks path id with
  | none => Except.error (BackendError.objectNotFound "symlink" id)
  | some target => Except.ok target

/-- `TestBackend::write_symlink`. -/
def writeSymlink (h : Hashes) (d : TestBackendData) (path : RepoPath)
    (target : String) : TestBackendData × List Nat :=
  let id := h.symlink target
  ({ d with symlinks := insert2 d.symlinks path id target }, id)

/-- `TestBackend::read_tree`: the empty-tree sentinel reads back as the
default tree before the table is consulted. -/
def readTree (h : Hashes) (d : TestBackendData) (path : RepoPath) (id : List Nat) :
    Except BackendError TreeData :=
  if id = emptyTreeId h then Except.ok []
  else
    match lookup2 d.trees path id with
    | none => Except.error (BackendError.objectNotFound "tree" id)
    | some tree => Except.ok tree

/-- `TestBackend::write_tree`. -/
def writeTree (h : Hashes) (d : TestBackendData) (path : RepoPath)
    (contents : TreeData) : TestBackendData × List Nat :=
  let id := h.tree contents
  ({ d with trees := insert2 d.trees path id contents }, id)

/-- `TestBackend::read_conflict`. -/
def readConflict (d : TestBackendData) (path : RepoPath) (id : List Nat) :
    Except BackendError (List (Option TreeValue)) :=
  match lookup2 d.conflicts path id with
  | none => Except.error (BackendError.objectNotFound "conflict" id)
  | some conflict => Except.ok conflict

/-- `TestBackend::write_conflict`. -/
def writeConflict (h : Hashes) (d : TestBackendData) (path : RepoPath)
    (contents : List (Option TreeValue)) : TestBackendData × List Nat :=
  let id := h.conflict contents
  ({ d with conflicts := insert2 d.conflicts path id contents }, id)

/-- `TestBackend::read_commit`: the root commit id synthesizes the root
commit before the table is consulted. -/
def readCommit (h : Hashes) (d : TestBackendData) (id : List Nat) :
    Except BackendError Commit :=
  if id = rootCommitId then
    Except.ok (makeRootCommit rootChangeId (emptyTreeId h))
  else
    match alookup d.commits id with
    | none => Except.error (BackendError.objectNotFound "commit" id)
    | some commit => Except.ok commit

/-- `TestBackend::read_copy` (keyed by id only). -/
def readCopy (d : TestBackendData) (id : List Nat) :
    Except BackendError (List Nat) :=
  match alookup d.copies id with
  | none => Except.error (BackendError.objectNotFound "copy" id)
  | some copy => Except.ok copy

/-- `TestBackend::write_copy`. -/
def writeCopy (h : Hashes) (d : TestBackendData) (contents : List Nat) :
    TestBackendData × List Nat :=
  let id := h.copy contents
  ({ d with copies := ainsert d.copies id contents }, id)

/-! ## `jj fix` (`cli/src/commands/fix.rs`)

`fix_file_ids` pipes each file-to-fix through its matching tools.  The
store is content-addressed, so as in the tree embedding a `FileId` is
modelled by the file's content: `store.read_file` on a `FileToFix`
returns its `file_id`, and `store.write_file` of some content returns
that content as the new id.  The parallel iteration over the
`HashSet<FileToFix>` with a result channel is modelled as a walk over a
duplicate-free list: the resulting map does not depend on the iteration
order. -/

/-- `FileToFix`: the file content (by id) and repository path handed to
the tools. -/
structure FileToFix where
  fileId : List Nat
  repoPath : RepoPath
  deriving DecidableEq

/-- `ToolConfig`: one entry of the `fix.tools` table (the command, the
compiled matcher, and the enabled flag). -/
structure ToolConfig where
  command : List String
  matcher : RepoPath → Bool
  enabled : Bool

/-- `ToolsConfig`: the tools in their (deterministic) execution order. -/
structure ToolsConfig where
  tools : List ToolConfig

/-- The behaviour of `run_tool`: spawning the subprocess, feeding it the
old content on stdin and collecting stdout is external I/O, so it is a
parameter; `Except.error` covers both a spawn failure and a non-zero
exit status (the two `Err(())` paths of `run_tool`). -/
abbrev RunTool := List String → FileToFix → List Nat → Except Unit (List Nat)

/-- The closure folded over the matching tools in `fix_file_ids`: take
the tool's output on success and keep the previous content when the tool
invocation failed. -/
def toolStep (runTool : RunTool) (fileToFix : FileToFix)
    (prevContent : List Nat) (tool : ToolConfig) : List Nat :=
  match runTool tool.command fileToFix prevContent with
  | Except.ok nextContent => nextContent
  | Except.error _ => prevContent

/-- The tools whose matcher matches the file, in configuration order. -/
def matchingTools (toolsConfig : ToolsConfig) (fileToFix : FileToFix) :
    List ToolConfig :=
  toolsConfig.tools.filter (fun tool => tool.matcher fileToFix.repoPath)

/-- The content a file-to-fix ends up with: the committed content piped
through every matching tool in order. -/
def finalContent (runTool : RunTool) (toolsConfig : ToolsConfig)
    (fileToFix : FileToFix) : List Nat :=
  (matchingTools toolsConfig fileToFix).foldl (toolStep runTool fileToFix)
    fileToFix.fileId

/-- The per-file body of the `fix_file_ids` loop: skip the file unless
some tool matches, fold the matching tools over the committed content,
and emit an update only when the content changed. -/
def fixEntry (runTool : RunTool) (toolsConfig : ToolsConfig)
    (fileToFix : FileToFix) : Option (FileToFix × List Nat) :=
  let matching := matchingTools toolsConfig fileToFix
  if matching.isEmpty then none
  else
    let oldContent := fileToFix.fileId
    let newContent := matching.foldl (toolStep runTool fileToFix) oldContent
    if newContent ≠ oldContent then
      -- `store.write_file` is content-addressed: the new id is the
      -- new content.
      some (fileToFix, newContent)
    else none

/-- `fix_file_ids`: for every file-to-fix with at least one matching
tool, fold the tools over the committed content and record the written
new file id when the content changed. -/
def fixFileIds (runTool : RunTool) (toolsConfig : ToolsConfig)
    (filesToFix : List FileToFix) : List (FileToFix × List Nat) :=
  filesToFix.filterMap (fixEntry runTool toolsConfig)

/-! ## Concrete instances used to evaluate the theorems -/

/-- A one-entry tree in the root directory. -/
def wTreeA : Tree := ⟨[], [("a", TreeValue.symlink "s1")]⟩

/-- The empty tree in the root directory. -/
def wTreeB : Tree := ⟨[], []⟩

/-- Another one-entry tree in the root directory. -/
def wTreeC : Tree := ⟨[], [("b", TreeValue.symlink "s2")]⟩

/-- The merge of `wTreeA` (side 1), `wTreeB` (base), `wTreeC` (side 2). -/
def wTreeAC : Tree :=
  ⟨[], [("a", TreeValue.symlink "s1"), ("b", TreeValue.symlink "s2")]⟩

/-- A concrete hash family: enough structure for the backend theorems to
be evaluated on concrete states. -/
def hashesW : Hashes :=
  { file := fun x => x
    symlink := fun s => [s.length]
    tree := fun t => [t.length]
    conflict := fun c => [c.length]
    commit := fun _ => [0]
    copy := fun x => x }

/-- A concrete tool runner: the tool named `upper` appends a byte, any
other command fails to spawn. -/
def runToolW : RunTool := fun cmd _ prev =>
  if cmd = ["upper"] then Except.ok (prev ++ [1]) else Except.error ()

/-- A concrete tool configuration matching exactly the path `src`. -/
def toolW : ToolConfig :=
  { command := ["upper"]
    matcher := fun p => decide (p = ["src"])
    enabled := true }

/-- A tool table holding `toolW`. -/
def toolsW : ToolsConfig := ⟨[toolW]⟩

/-- A concrete file-to-fix at path `src`. -/
def fileW : FileToFix := ⟨[7], ["src"]⟩

/-! ## Lemmas about the merge loop -/

theorem treeValue_setOrRemove_self (d : TreeData) (name : String)
    (v : Option TreeValue) : treeValue (setOrRemove d name v) name = v := by
  cases v with
  | none => simp [setOrRemove, treeValue, alookup_aremove_self]
  | some w => simp [setOrRemove, treeValue, alookup_ainsert_self]

theorem treeValue_setOrRemove_ne (d : TreeData) (name name' : String)
    (v : Option TreeValue) (h : name' ≠ name) :
    treeValue (setOrRemove d name v) name' = treeValue d name' := by
  cases v with
  | none => simp [setOrRemove, treeValue, alookup_aremove_ne _ _ _ h]
  | some w => simp [setOrRemove, treeValue, alookup_ainsert_ne _ _ _ _ h]

theorem mergeLoopGen_ok_notmem
    (mtv : String → Option TreeValue → Option TreeValue → Option TreeValue →
      Except MergeErr (Option TreeValue))
    (s1 b s2 : Tree) :
    ∀ (names : List String) (acc out : TreeData),
      mergeLoopGen mtv s1 b s2 names acc = Except.ok out →
      ∀ n, n ∉ names → treeValue out n = treeValue acc n := by
  intro names
  induction names with
  | nil =>
    intro acc out h n _
    simp only [mergeLoopGen, Except.ok.injEq] at h
    rw [h]
  | cons m rest ih =>
    intro acc out h n hn
    rw [List.mem_cons, not_or] at hn
    simp only [mergeLoopGen] at h
    split at h
    · have hrec := ih _ _ h n hn.2
      rw [hrec, treeValue_setOrRemove_ne _ _ _ _ hn.1]
    · split at h
      · exact ih _ _ h n hn.2
      · split at h
        · exact absurd h (by simp)
        · have hrec := ih _ _ h n hn.2
          rw [hrec, treeValue_setOrRemove_ne _ _ _ _ hn.1]

theorem mergeLoopGen_ok_mem
    (mtv : String → Option TreeValue → Option TreeValue → Option TreeValue →
      Except MergeErr (Option TreeValue))
    (s1 b s2 : Tree) :
    ∀ (names : List String) (acc out : TreeData), names.Nodup →
      mergeLoopGen mtv s1 b s2 names acc = Except.ok out →
      ∀ n ∈ names,
        (treeValue s1.data n = treeValue b.data n →
          treeValue out n = treeValue s2.data n)
      ∧ (treeValue s1.data n ≠ treeValue b.data n →
          treeValue s1.data n = treeValue s2.data n →
          treeValue out n = treeValue acc n)
      ∧ (treeValue s1.data n ≠ treeValue b.data n →
          treeValue s1.data n ≠ treeValue s2.data n →
          ∃ nv, mtv n (treeValue b.data n) (treeValue s1.data n)
              (treeValue s2.data n) = Except.ok nv
            ∧ treeValue out n = nv) := by
  intro names
  induction names with
  | nil =>
    intro acc out _ _ n hn
    exact absurd hn (List.not_mem_nil n)
  | cons m rest ih =>
    intro acc out hnd h n hn
    have hmrest : m ∉ rest := (List.nodup_cons.mp hnd).1
    have hndrest : rest.Nodup := (List.nodup_cons.mp hnd).2
    rcases List.mem_cons.mp hn with heq | hmem
    · subst heq
      simp only [mergeLoopGen] at h
      split at h
      case isTrue h1 =>
        refine ⟨fun _ => ?_, fun hne _ => absurd h1 hne, fun hne _ => absurd h1 hne⟩
        have hout := mergeLoopGen_ok_notmem mtv s1 b s2 rest _ _ h n hmrest
        rw [hout, treeValue_setOrRemove_self]
      case isFalse h1 =>
        split at h
        case isTrue h2 =>
          refine ⟨fun hc => absurd hc h1, fun _ _ => ?_, fun _ hne => absurd h2 hne⟩
          exact mergeLoopGen_ok_notmem mtv s1 b s2 rest _ _ h n hmrest
        case isFalse h2 =>
          split at h
          case h_1 => exact absurd h (by simp)
          case h_2 nv hnv =>
            refine ⟨fun hc => absurd hc h1, fun _ hc => absurd hc h2, fun _ _ => ?_⟩
            refine ⟨nv, hnv, ?_⟩
            have hout := mergeLoopGen_ok_notmem mtv s1 b s2 rest _ _ h n hmrest
            rw [hout, treeValue_setOrRemove_self]
    · have hne : n ≠ m := fun hc => hmrest (hc ▸ hmem)
      simp only [mergeLoopGen] at h
      split at h
      · have hrec := ih _ _ hndrest h n hmem
        refine ⟨hrec.1, fun ha hb => ?_, hrec.2.2⟩
        rw [hrec.2.1 ha hb, treeValue_setOrRemove_ne _ _ _ _ hne]
      · split at h
        · exact ih _ _ hndrest h n hmem
        · split at h
          · exact absurd h (by simp)
          · have hrec := ih _ _ hndrest h n hmem
            refine ⟨hrec.1, fun ha hb => ?_, hrec.2.2⟩
            rw [hrec.2.1 ha hb, treeValue_setOrRemove_ne _ _ _ _ hne]

theorem mem_unionNames_of_ne (d1 d2 : TreeData) (n : String)
    (h : treeValue d1 n ≠ treeValue d2 n) : n ∈ unionNames d1 d2 := by
  rw [unionNames, List.mem_dedup, List.mem_append]
  rcases hv : treeValue d1 n with _ | v
  · rcases hv2 : treeValue d2 n with _ | v2
    · exact absurd (hv.trans hv2.symm) h
    · exact Or.inr (alookup_isSome_mem_keys d2 n v2 hv2)
  · exact Or.inl (alookup_isSome_mem_keys d1 n v hv)

theorem mem_diffNames_iff (d1 d2 : TreeData) (n : String) :
    n ∈ diffNames d1 d2 ↔ treeValue d1 n ≠ treeValue d2 n := by
  rw [diffNames, List.mem_filter]
  constructor
  · intro h
    simpa using h.2
  · intro h
    exact ⟨mem_unionNames_of_ne d1 d2 n h, by simpa using h⟩

theorem diffNames_nodup (d1 d2 : TreeData) : (diffNames d1 d2).Nodup :=
  (List.nodup_dedup _).filter _

/-! ## Claim theorems: tree merge -/

/-- C1: when no pair of the three input trees is equal, `merge_trees`
keeps side 1's value at every basename where base and side 2 agree, and
at every basename where they differ it takes side 2 if side 1 equals
base, keeps side 1 if side 1 equals side 2, and otherwise takes the value
produced by `merge_tree_value(base, side1, side2)` for that basename. -/
theorem merge_trees_per_basename (fuel : Nat) (s1 b s2 t : Tree)
    (hd1 : s1.dir = b.dir) (hd2 : s2.dir = b.dir)
    (h1b : s1 ≠ b) (hb2 : b ≠ s2) (h12 : s1 ≠ s2)
    (hok : mergeTrees (fuel + 1) s1 b s2 = Except.ok t) :
    ∀ n,
      (treeValue b.data n = treeValue s2.data n →
        treeValue t.data n = treeValue s1.data n)
    ∧ (treeValue b.data n ≠ treeValue s2.data n →
        (treeValue s1.data n = treeValue b.data n →
          treeValue t.data n = treeValue s2.data n)
      ∧ (treeValue s1.data n ≠ treeValue b.data n →
          treeValue s1.data n = treeValue s2.data n →
          treeValue t.data n = treeValue s1.data n)
      ∧ (treeValue s1.data n ≠ treeValue b.data n →
          treeValue s1.data n ≠ treeValue s2.data n →
          mergeTreeValue fuel b.dir n (treeValue b.data n)
            (treeValue s1.data n) (treeValue s2.data n) =
            Except.ok (treeValue t.data n))) := by
  simp only [mergeTrees, hd1, hd2, ne_eq, not_true_eq_false, if_false,
    trivialMerge, trivialMerge3, h1b, h12, hb2, if_neg] at hok
  split at hok
  · exact absurd hok (by simp)
  case h_2 new_tree hloop =>
    rw [Except.ok.injEq] at hok
    subst hok
    intro n
    by_cases hbs2 : treeValue b.data n = treeValue s2.data n
    · refine ⟨fun _ => ?_, fun hne => absurd hbs2 hne⟩
      have hnmem : n ∉ diffNames b.data s2.data := by
        rw [mem_diffNames_iff]
        simpa using hbs2
      exact mergeLoopGen_ok_notmem _ s1 b s2 _ _ _ hloop n hnmem
    · refine ⟨fun hc => absurd hc hbs2, fun _ => ?_⟩
      have hmem : n ∈ diffNames b.data s2.data :=
        (mem_diffNames_iff b.data s2.data n).mpr hbs2
      have hrec := mergeLoopGen_ok_mem _ s1 b s2 _ _ _
        (diffNames_nodup b.data s2.data) hloop n hmem
      refine ⟨hrec.1, hrec.2.1, fun ha hb => ?_⟩
      obtain ⟨nv, hnv, hval⟩ := hrec.2.2 ha hb
      show mergeTreeValueGen (mergeTrees fuel) b.dir n _ _ _ =
        Except.ok (treeValue new_tree n)
      rw [hval]
      exact hnv

/-- C1 witness: the basename theorem evaluated on a concrete merge. -/
theorem merge_trees_per_basename_witness :
    (wTreeA.dir = wTreeB.dir ∧ wTreeC.dir = wTreeB.dir ∧ wTreeA ≠ wTreeB ∧
      wTreeB ≠ wTreeC ∧ wTreeA ≠ wTreeC ∧
      mergeTrees 1 wTreeA wTreeB wTreeC = Except.ok wTreeAC)
    ∧ treeValue wTreeAC.data "a" = treeValue wTreeA.data "a"
    ∧ treeValue wTreeAC.data "b" = treeValue wTreeC.data "b" :=
  ⟨by decide,
   ((merge_trees_per_basename 0 wTreeA wTreeB wTreeC wTreeAC (by decide)
      (by decide) (by decide) (by decide) (by decide) (by decide)) "a").1
     (by decide),
   (((merge_trees_per_basename 0 wTreeA wTreeB wTreeC wTreeAC (by decide)
      (by decide) (by decide) (by decide) (by decide) (by decide)) "b").2
     (by decide)).1 (by decide)⟩

/-- C2: for trees of the same directory, `merge_trees(x, x, y) = y` and
`merge_trees(x, y, y) = x` — when one side equals the base, the merge
returns the other side. -/
theorem merge_trees_trivial_side_base (fuel : Nat) (x y : Tree)
    (h : x.dir = y.dir) :
    mergeTrees (fuel + 1) x x y = Except.ok y
    ∧ mergeTrees (fuel + 1) x y y = Except.ok x := by
  by_cases hxy : x = y
  · subst hxy
    constructor <;> simp [mergeTrees, trivialMerge, trivialMerge3]
  · constructor
    · simp [mergeTrees, trivialMerge, trivialMerge3, h.symm, hxy]
    · simp [mergeTrees, trivialMerge, trivialMerge3, h, hxy]

/-- C2 witness: the trivial-resolve theorem evaluated on concrete
trees. -/
theorem merge_trees_trivial_side_base_witness :
    wTreeA.dir = wTreeC.dir
    ∧ (mergeTrees 1 wTreeA wTreeA wTreeC = Except.ok wTreeC
      ∧ mergeTrees 1 wTreeA wTreeC wTreeC = Except.ok wTreeA) :=
  ⟨by decide, merge_trees_trivial_side_base 0 wTreeA wTreeC (by decide)⟩

/-- C3 counterexample: `merge_trees(x, y, x)` returns `x`, not `y`, on
concrete distinct trees — both sides made the same change, so the merge
keeps the common side rather than the base. -/
theorem merge_trees_both_sides_equal_cex :
    mergeTrees 1 wTreeA wTreeB wTreeA = Except.ok wTreeA
    ∧ mergeTrees 1 wTreeA wTreeB wTreeA ≠ Except.ok wTreeB
    ∧ wTreeA ≠ wTreeB := by decide

/-- C3 amended: for trees of the same directory,
`merge_trees(x, y, x) = x` — when both sides are equal, the merge
returns the common side. -/
theorem merge_trees_both_sides_equal (fuel : Nat) (x y : Tree)
    (h : x.dir = y.dir) :
    mergeTrees (fuel + 1) x y x = Except.ok x := by
  simp [mergeTrees, trivialMerge, trivialMerge3, h]

/-- C3 amended witness: evaluated on concrete trees. -/
theorem merge_trees_both_sides_equal_witness :
    wTreeA.dir = wTreeC.dir
    ∧ mergeTrees 1 wTreeA wTreeC wTreeA = Except.ok wTreeA :=
  ⟨by decide, merge_trees_both_sides_equal 0 wTreeA wTreeC (by decide)⟩

/-- C4: whenever the base, side-1 and side-2 values at a basename are
each a subtree or missing (missing treated as the empty tree),
`merge_tree_value` returns the recursive `merge_trees` of the three
subtrees, dropping the entry when the merged subtree is the empty tree;
a present resulting value is never a reference to an empty subtree. -/
theorem merge_tree_value_tree_recursion (fuel : Nat) (dir : List String)
    (basename : String) (mb ms1 ms2 : Option TreeValue) (db d1 d2 : TreeData)
    (hb : maybeTreeData mb = some db) (h1 : maybeTreeData ms1 = some d1)
    (h2 : maybeTreeData ms2 = some d2) :
    (∀ merged, mergeTrees fuel ⟨dir ++ [basename], d1⟩ ⟨dir ++ [basename], db⟩
        ⟨dir ++ [basename], d2⟩ = Except.ok merged →
      mergeTreeValue fuel dir basename mb ms1 ms2 =
        Except.ok (if merged.data = [] then none
          else some (TreeValue.tree merged.data)))
    ∧ (∀ merged, mergeTrees fuel ⟨dir ++ [basename], d1⟩ ⟨dir ++ [basename], db⟩
        ⟨dir ++ [basename], d2⟩ = Except.ok merged → merged.data = [] →
      mergeTreeValue fuel dir basename mb ms1 ms2 = Except.ok none)
    ∧ (∀ d, mergeTreeValue fuel dir basename mb ms1 ms2 =
        Except.ok (some (TreeValue.tree d)) → d ≠ []) := by
  refine ⟨?_, ?_, ?_⟩
  · intro merged hmerged
    simp [mergeTreeValue, mergeTreeValueGen, hb, h1, h2, hmerged]
  · intro merged hmerged hempty
    simp [mergeTreeValue, mergeTreeValueGen, hb, h1, h2, hmerged, hempty]
  · intro d hres
    simp only [mergeTreeValue, mergeTreeValueGen, hb, h1, h2] at hres
    split at hres
    · exact absurd hres (by simp)
    · rw [Except.ok.injEq] at hres
      split at hres
      · exact absurd hres (by simp)
      case isFalse hne =>
        intro hd
        rw [Option.some.injEq, TreeValue.tree.injEq] at hres
        exact hne (hres ▸ hd)

/-- C4 witness: a subtree merge that resolves to the empty tree drops
the entry, evaluated on concrete values. -/
theorem merge_tree_value_tree_recursion_witness :
    (maybeTreeData (some (TreeValue.tree [("x", TreeValue.symlink "v")])) =
        some [("x", TreeValue.symlink "v")]
      ∧ maybeTreeData (none : Option TreeValue) = some []
      ∧ mergeTrees 1 (⟨["d"], []⟩ : Tree) ⟨["d"], [("x", TreeValue.symlink "v")]⟩
          ⟨["d"], []⟩ = Except.ok ⟨["d"], []⟩)
    ∧ mergeTreeValue 1 [] "d" (some (TreeValue.tree [("x", TreeValue.symlink "v")]))
        none none = Except.ok none :=
  ⟨by decide,
   (merge_tree_value_tree_recursion 1 [] "d"
      (some (TreeValue.tree [("x", TreeValue.symlink "v")])) none none
      [("x", TreeValue.symlink "v")] [] [] (by decide) (by decide)
      (by decide)).2.1 ⟨["d"], []⟩ (by decide) (by decide)⟩

/-! ## Claim theorems: file conflict auto-resolution -/

theorem maybeMap_eq_none_of_mem {α β : Type} (f : α → Option β) :
    ∀ (l : List α) (a : α), a ∈ l → f a = none → maybeMap f l = none := by
  intro l
  induction l with
  | nil => intro a ha; exact absurd ha (List.not_mem_nil a)
  | cons hd tl ih =>
    intro a ha hfa
    rcases List.mem_cons.mp ha with heq | hmem
    · subst heq
      simp [maybeMap, hfa]
    · rw [maybeMap, ih a hmem hfa]
      cases f hd <;> rfl

theorem maybeMap_isSome_mono {α β γ : Type} (f : α → Option β) (g : α → Option γ)
    (hfg : ∀ a, (g a).isSome → (f a).isSome) :
    ∀ (l : List α) (bs : List γ), maybeMap g l = some bs →
      ∃ cs, maybeMap f l = some cs := by
  intro l
  induction l with
  | nil => exact fun bs _ => ⟨[], rfl⟩
  | cons hd tl ih =>
    intro bs hg
    rw [maybeMap] at hg
    rcases hghd : g hd with _ | b
    · rw [hghd] at hg
      exact absurd hg (by simp)
    · rcases hgtl : maybeMap g tl with _ | bs2
      · rw [hghd, hgtl] at hg
        exact absurd hg (by simp)
      · obtain ⟨cs, hcs⟩ := ih bs2 hgtl
        have hfhd : (f hd).isSome := hfg hd (by rw [hghd]; rfl)
        rcases hfhd2 : f hd with _ | c
        · rw [hfhd2] at hfhd
          exact absurd hfhd (by simp)
        · exact ⟨c :: cs, by rw [maybeMap, hfhd2, hcs]⟩

/-- C5 (amended): `try_resolve_file_conflict` returns `None` whenever
some term is not a present file, and whenever the per-term executable or
copy-id merge does not resolve trivially; for executable bits base=false,
side1=true, side2=true the conflict resolves with executable=true, and
for side1=true, side2=false (base=false) the executable merge also
resolves trivially — to true, since side 2 equals the base — so the
auto-merge is not aborted on account of the executable bit. -/
theorem try_resolve_file_conflict_spec :
    (∀ (filesMerge : List (List Nat) → MergeResult)
        (conflict : List (Option TreeValue)) (term : Option TreeValue),
        term ∈ conflict → termFileId term = none →
        tryResolveFileConflict filesMerge conflict = none)
    ∧ (∀ (filesMerge : List (List Nat) → MergeResult)
        (conflict : List (Option TreeValue)) (ec : List Bool),
        maybeMap termExecutable conflict = some ec → trivialMerge ec = none →
        tryResolveFileConflict filesMerge conflict = none)
    ∧ (∀ (filesMerge : List (List Nat) → MergeResult)
        (conflict : List (Option TreeValue)) (cc : List (List Nat)),
        maybeMap termCopyId conflict = some cc → trivialMerge cc = none →
        tryResolveFileConflict filesMerge conflict = none)
    ∧ tryResolveFileConflict filesMergeModel
        [some (TreeValue.file [1] true []), some (TreeValue.file [0] false []),
          some (TreeValue.file [1] true [])]
        = some (TreeValue.file [1] true [])
    ∧ tryResolveFileConflict filesMergeModel
        [some (TreeValue.file [1] true []), some (TreeValue.file [2] false []),
          some (TreeValue.file [1] false [])]
        = some (TreeValue.file [1] true []) := by
  refine ⟨?_, ?_, ?_, by decide, by decide⟩
  · intro fm conflict term hmem hnone
    rw [tryResolveFileConflict, maybeMap_eq_none_of_mem termFileId conflict term hmem hnone]
  · intro fm conflict ec hec htr
    rw [tryResolveFileConflict]
    rcases hfid : maybeMap termFileId conflict with _ | fids
    · rfl
    · rw [hec]
      rcases hcc : maybeMap termCopyId conflict with _ | cc
      · rfl
      · simp only []
        rw [htr]
  · intro fm conflict cc hcc htr
    rw [tryResolveFileConflict]
    rcases hfid : maybeMap termFileId conflict with _ | fids
    · rfl
    · rcases hec : maybeMap termExecutable conflict with _ | ec
      · rfl
      · rw [hcc]
        simp only []
        rcases hte : trivialMerge ec with _ | e
        · rfl
        · simp only []
          rw [htr]

/-- C5 witness: the abort conditions evaluated on a concrete non-file
conflict. -/
theorem try_resolve_file_conflict_spec_witness :
    ((some (TreeValue.symlink "s") : Option TreeValue) ∈
        [some (TreeValue.symlink "s")]
      ∧ termFileId (some (TreeValue.symlink "s")) = none)
    ∧ tryResolveFileConflict filesMergeModel [some (TreeValue.symlink "s")] = none :=
  ⟨⟨by decide, by decide⟩,
   try_resolve_file_conflict_spec.1 filesMergeModel
      [some (TreeValue.symlink "s")] (some (TreeValue.symlink "s"))
      (by decide) (by decide)⟩

/-- C5 counterexample: for executable bits base=false, side1=true,
side2=false the auto-merge is not aborted — the executable merge resolves
trivially to true and the file id resolves trivially, so a resolved file
is returned. -/
theorem try_resolve_file_conflict_cex :
    tryResolveFileConflict filesMergeModel
      [some (TreeValue.file [1] true []), some (TreeValue.file [2] false []),
        some (TreeValue.file [1] false [])] ≠ none := by decide

/-! ## Claim theorems: the test backend -/

theorem lookup2_insert2_self {κ ν : Type} [DecidableEq κ]
    (m : List (RepoPath × List (κ × ν))) (p : RepoPath) (k : κ) (v : ν) :
    lookup2 (insert2 m p k v) p k = some v := by
  rw [lookup2, insert2, alookup_ainsert_self]
  simp only [Option.some_bind]
  rw [alookup_ainsert_self]

theorem lookup2_insert2_ne_path {κ ν : Type} [DecidableEq κ]
    (m : List (RepoPath × List (κ × ν))) (p p' : RepoPath) (k : κ) (k' : κ)
    (v : ν) (h : p' ≠ p) :
    lookup2 (insert2 m p k v) p' k' = lookup2 m p' k' := by
  rw [lookup2, lookup2, insert2, alookup_ainsert_ne _ _ _ _ h]

/-- C6: for every backend state, `read_commit` on the root commit id
succeeds with the synthetic root commit built from the all-zero change
id and the empty-tree id, without consulting the commit table. -/
theorem read_commit_root (h : Hashes) (d : TestBackendData) :
    readCommit h d rootCommitId =
      Except.ok (makeRootCommit rootChangeId (emptyTreeId h)) := by
  simp [readCommit]

/-- C7: for every path and every backend state, `read_tree` on the
empty-tree sentinel succeeds with the empty tree without consulting the
tree table. -/
theorem read_tree_empty_sentinel (h : Hashes) (d : TestBackendData)
    (path : RepoPath) :
    readTree h d path (emptyTreeId h) = Except.ok [] := by
  simp [readTree]

/-- C8: for every entity type of the test backend (file, symlink, tree,
conflict, copy history), reading back a just-written object at the same
path returns exactly the written content, and writing the same content
twice at the same path yields the same id both times (the id is a
function of the content only).  For trees, the hash is assumed not to
collide the written tree with the empty-tree sentinel. -/
theorem backend_write_read_round_trip (h : Hashes) :
    (∀ (d : TestBackendData) (path : RepoPath) (x : List Nat),
        readFile (writeFile h d path x).1 path (writeFile h d path x).2 =
          Except.ok x
      ∧ (writeFile h (writeFile h d path x).1 path x).2 =
          (writeFile h d path x).2)
    ∧ (∀ (d : TestBackendData) (path : RepoPath) (x : String),
        readSymlink (writeSymlink h d path x).1 path
            (writeSymlink h d path x).2 = Except.ok x
      ∧ (writeSymlink h (writeSymlink h d path x).1 path x).2 =
          (writeSymlink h d path x).2)
    ∧ (∀ (d : TestBackendData) (path : RepoPath) (x : TreeData),
        (h.tree x = h.tree [] → x = []) →
        readTree h (writeTree h d path x).1 path (writeTree h d path x).2 =
          Except.ok x
      ∧ (writeTree h (writeTree h d path x).1 path x).2 =
          (writeTree h d path x).2)
    ∧ (∀ (d : TestBackendData) (path : RepoPath) (x : List (Option TreeValue)),
        readConflict (writeConflict h d path x).1 path
            (writeConflict h d path x).2 = Except.ok x
      ∧ (writeConflict h (writeConflict h d path x).1 path x).2 =
          (writeConflict h d path x).2)
    ∧ (∀ (d : TestBackendData) (x : List Nat),
        readCopy (writeCopy h d x).1 (writeCopy h d x).2 = Except.ok x
      ∧ (writeCopy h (writeCopy h d x).1 x).2 = (writeCopy h d x).2) := by
  refine ⟨?_, ?_, ?_, ?_, ?_⟩
  · intro d path x
    exact ⟨by simp [readFile, writeFile, lookup2_insert2_self], rfl⟩
  · intro d path x
    exact ⟨by simp [readSymlink, writeSymlink, lookup2_insert2_self], rfl⟩
  · intro d path x hinj
    refine ⟨?_, rfl⟩
    by_cases hx : h.tree x = h.tree []
    · have hx0 := hinj hx
      subst hx0
      simp [readTree, writeTree, emptyTreeId]
    · simp [readTree, writeTree, emptyTreeId, hx, lookup2_insert2_self]
  · intro d path x
    exact ⟨by simp [readConflict, writeConflict, lookup2_insert2_self], rfl⟩
  · intro d x
    exact ⟨by simp [readCopy, writeCopy, alookup_ainsert_self], rfl⟩

/-- C8 witness: the tree round-trip evaluated on a concrete hash family
and state. -/
theorem backend_write_read_round_trip_witness :
    (hashesW.tree [("a", TreeValue.symlink "s")] = hashesW.tree [] →
      [("a", TreeValue.symlink "s")] = ([] : TreeData))
    ∧ (readTree hashesW
          (writeTree hashesW TestBackendData.empty ["p"]
            [("a", TreeValue.symlink "s")]).1 ["p"]
          (writeTree hashesW TestBackendData.empty ["p"]
            [("a", TreeValue.symlink "s")]).2 =
        Except.ok [("a", TreeValue.symlink "s")]
      ∧ (writeTree hashesW
          (writeTree hashesW TestBackendData.empty ["p"]
            [("a", TreeValue.symlink "s")]).1 ["p"]
          [("a", TreeValue.symlink "s")]).2 =
        (writeTree hashesW TestBackendData.empty ["p"]
          [("a", TreeValue.symlink "s")]).2) :=
  ⟨by decide,
   (backend_write_read_round_trip hashesW).2.2.1 TestBackendData.empty ["p"]
     [("a", TreeValue.symlink "s")] (by decide)⟩

/-- C9: each read operation of the test backend fails with
`ObjectNotFound` exactly when the requested id is not stored at the
requested path (excluding the empty-tree sentinel for `read_tree` and
the root commit id for `read_commit`); in particular, content written at
one path is not readable under the same id at a different path. -/
theorem backend_read_object_not_found :
    (∀ (d : TestBackendData) (path : RepoPath) (id : List Nat),
        readFile d path id =
            Except.error (BackendError.objectNotFound "file" id)
          ↔ lookup2 d.files path id = none)
    ∧ (∀ (d : TestBackendData) (path : RepoPath) (id : List Nat),
        readSymlink d path id =
            Except.error (BackendError.objectNotFound "symlink" id)
          ↔ lookup2 d.symlinks path id = none)
    ∧ (∀ (h : Hashes) (d : TestBackendData) (path : RepoPath) (id : List Nat),
        id ≠ emptyTreeId h →
        (readTree h d path id =
            Except.error (BackendError.objectNotFound "tree" id)
          ↔ lookup2 d.trees path id = none))
    ∧ (∀ (d : TestBackendData) (path : RepoPath) (id : List Nat),
        readConflict d path id =
            Except.error (BackendError.objectNotFound "conflict" id)
          ↔ lookup2 d.conflicts path id = none)
    ∧ (∀ (h : Hashes) (d : TestBackendData) (id : List Nat),
        id ≠ rootCommitId →
        (readCommit h d id =
            Except.error (BackendError.objectNotFound "commit" id)
          ↔ alookup d.commits id = none))
    ∧ (∀ (h : Hashes) (d : TestBackendData) (p p' : RepoPath) (x : List Nat),
        p' ≠ p → lookup2 d.files p' (h.file x) = none →
        readFile (writeFile h d p x).1 p' (h.file x) =
          Except.error (BackendError.objectNotFound "file" (h.file x))) := by
  refine ⟨?_, ?_, ?_, ?_, ?_, ?_⟩
  · intro d path id
    rcases hl : lookup2 d.files path id with _ | c <;> simp [readFile, hl]
  · intro d path id
    rcases hl : lookup2 d.symlinks path id with _ | c <;> simp [readSymlink, hl]
  · intro h d path id hne
    rcases hl : lookup2 d.trees path id with _ | c <;> simp [readTree, hl, hne]
  · intro d path id
    rcases hl : lookup2 d.conflicts path id with _ | c <;> simp [readConflict, hl]
  · intro h d id hne
    rcases hl : alookup d.commits id with _ | c <;> simp [readCommit, hl, hne]
  · intro h d p p' x hp hnone
    simp [readFile, writeFile, lookup2_insert2_ne_path _ _ _ _ _ _ hp, hnone]

/-- C9 witness: the tree reader evaluated on a concrete hash family,
id and state. -/
theorem backend_read_object_not_found_witness :
    ([5] ≠ emptyTreeId hashesW)
    ∧ (readTree hashesW TestBackendData.empty ["p"] [5] =
          Except.error (BackendError.objectNotFound "tree" [5])
      ↔ lookup2 TestBackendData.empty.trees ["p"] [5] = none) :=
  ⟨by decide,
   backend_read_object_not_found.2.2.1 hashesW TestBackendData.empty ["p"] [5]
     (by decide)⟩

/-! ## Claim theorems: `fix_file_ids` -/

theorem fixEntry_eq (rt : RunTool) (tc : ToolsConfig) (f : FileToFix) :
    fixEntry rt tc f =
      if (matchingTools tc f).isEmpty ∨ finalContent rt tc f = f.fileId
      then none else some (f, finalContent rt tc f) := by
  rw [fixEntry, finalContent]
  by_cases hm : (matchingTools tc f).isEmpty
  · simp [hm]
  · by_cases hc :
      (matchingTools tc f).foldl (toolStep rt f) f.fileId = f.fileId
    · simp [hm, hc]
    · simp [hm, hc]

theorem alookup_fixFileIds_notmem (rt : RunTool) (tc : ToolsConfig) :
    ∀ (files : List FileToFix) (f : FileToFix), f ∉ files →
      alookup (fixFileIds rt tc files) f = none := by
  intro files
  induction files with
  | nil => intro f _; rfl
  | cons g rest ih =>
    intro f hf
    rw [List.mem_cons, not_or] at hf
    rw [fixFileIds, List.filterMap_cons, fixEntry_eq]
    by_cases hcond :
        (matchingTools tc g).isEmpty = true ∨ finalContent rt tc g = g.fileId
    · rw [if_pos hcond]
      exact ih f hf.2
    · rw [if_neg hcond]
      simp only []
      rw [alookup, if_neg hf.1]
      exact ih f hf.2

theorem alookup_fixFileIds (rt : RunTool) (tc : ToolsConfig) :
    ∀ (files : List FileToFix), files.Nodup → ∀ f ∈ files,
      alookup (fixFileIds rt tc files) f =
        (if (matchingTools tc f).isEmpty ∨ finalContent rt tc f = f.fileId
         then none else some (finalContent rt tc f)) := by
  intro files
  induction files with
  | nil => intro _ f hf; exact absurd hf (List.not_mem_nil f)
  | cons g rest ih =>
    intro hnd f hf
    have hgrest : g ∉ rest := (List.nodup_cons.mp hnd).1
    have hndrest : rest.Nodup := (List.nodup_cons.mp hnd).2
    rw [fixFileIds, List.filterMap_cons, fixEntry_eq]
    rcases List.mem_cons.mp hf with heq | hmem
    · subst heq
      by_cases hc :
          (matchingTools tc f).isEmpty = true ∨ finalContent rt tc f = f.fileId
      · rw [if_pos hc, if_pos hc]
        exact alookup_fixFileIds_notmem rt tc rest f hgrest
      · rw [if_neg hc, if_neg hc]
        simp only []
        rw [alookup, if_pos rfl]
    · have hne : f ≠ g := fun hc => hgrest (hc ▸ hmem)
      by_cases hc :
          (matchingTools tc g).isEmpty = true ∨ finalContent rt tc g = g.fileId
      · rw [if_pos hc]
        exact ih hndrest f hmem
      · rw [if_neg hc]
        simp only []
        rw [alookup, if_neg hne]
        exact ih hndrest f hmem

/-- C10: `fix_file_ids` returns a map with an entry for a file-to-fix
exactly when some configured tool matches it and the final content
differs from the committed content; the entry holds the id of the final
content, obtained by piping the content through the matching tools in
order, each tool after the first receiving the previous tool's output,
with a failing tool invocation leaving the content of the previous
stage unchanged. -/
theorem fix_file_ids_spec (rt : RunTool) (tc : ToolsConfig)
    (files : List FileToFix) (hnd : files.Nodup) (f : FileToFix)
    (hf : f ∈ files) :
    (alookup (fixFileIds rt tc files) f =
      if (matchingTools tc f).isEmpty ∨ finalContent rt tc f = f.fileId
      then none else some (finalContent rt tc f))
    ∧ ((∃ id, alookup (fixFileIds rt tc files) f = some id) ↔
        ((∃ tool ∈ tc.tools, tool.matcher f.repoPath = true)
          ∧ finalContent rt tc f ≠ f.fileId))
    ∧ finalContent rt tc f =
        (matchingTools tc f).foldl (toolStep rt f) f.fileId
    ∧ (∀ (prev : List Nat) (tool : ToolConfig),
        rt tool.command f prev = Except.error () →
        toolStep rt f prev tool = prev) := by
  have hmain := alookup_fixFileIds rt tc files hnd f hf
  refine ⟨hmain, ?_, rfl, ?_⟩
  · rw [hmain]
    by_cases hc : (matchingTools tc f).isEmpty ∨ finalContent rt tc f = f.fileId
    · rw [if_pos hc]
      constructor
      · intro hcontra
        obtain ⟨id, hid⟩ := hcontra
        exact absurd hid (by simp)
      · intro hgood
        rcases hc with hc | hc
        · exfalso
          rw [matchingTools, List.isEmpty_iff, List.filter_eq_nil_iff] at hc
          obtain ⟨tool, htool, hmatch⟩ := hgood.1
          exact hc tool htool (by simp [hmatch])
        · exact absurd hc hgood.2
    · rw [if_neg hc]
      rw [not_or] at hc
      constructor
      · intro _
        refine ⟨?_, hc.2⟩
        rw [matchingTools, List.isEmpty_iff, List.filter_eq_nil_iff] at hc
        have := hc.1
        push_neg at this
        obtain ⟨tool, htool, hmatch⟩ := this
        exact ⟨tool, htool, by simpa using hmatch⟩
      · intro _
        exact ⟨finalContent rt tc f, rfl⟩
  · intro prev tool herr
    rw [toolStep, herr]

/-- C10 witness: the map contents evaluated on a concrete tool table and
file set. -/
theorem fix_file_ids_spec_witness :
    (([fileW] : List FileToFix).Nodup ∧ fileW ∈ [fileW])
    ∧ alookup (fixFileIds runToolW toolsW [fileW]) fileW =
        (if (matchingTools toolsW fileW).isEmpty ∨
            finalContent runToolW toolsW fileW = fileW.fileId
         then none else some (finalContent runToolW toolsW fileW)) :=
  ⟨⟨by decide, by decide⟩,
   (fix_file_ids_spec runToolW toolsW [fileW] (by decide) fileW (by decide)).1⟩

end JJ
